import Mathlib

/-!
Shallow embedding of the multi-tier test discovery and generation pipeline
(`pipeline.py` / `run_pipeline.py`).

Python strings are modelled as `List Char`.  All pure text manipulation
(path substitution, regex matching, brace scanning, extraction, dedup) is
translated directly from the source.  External subprocess results (git,
Maven, EvoSuite, Randoop) enter the model as oracle parameters; the
orchestration decisions taken on those results are translated from the
source verbatim.
-/

abbrev CS : Type := List Char

/-- Python `s.startswith(pat)` on char lists. -/
def startsWithCL : CS → CS → Bool
  | [], _ => true
  | _ :: _, [] => false
  | p :: ps, c :: cs => p == c && startsWithCL ps cs

/-- Python `s.endswith(pat)` on char lists. -/
def endsWithCL (pat s : CS) : Bool :=
  startsWithCL pat (s.drop (s.length - pat.length))

/-- Fuelled scan for Python `s.find(pat)`: index of the first occurrence. -/
def findSubGo (pat : CS) : CS → Nat → Nat → Option Nat
  | _, _, 0 => none
  | s, pos, fuel + 1 =>
    if startsWithCL pat s then some pos
    else
      match s with
      | [] => none
      | _ :: rest => findSubGo pat rest (pos + 1) fuel

/-- Python `s.find(pat)` (`none` models the -1 result). -/
def findSub (pat s : CS) : Option Nat := findSubGo pat s 0 (s.length + 1)

/-- Python `pat in s` substring containment. -/
def containsCL (pat s : CS) : Bool := (findSub pat s).isSome

/-- Fuelled worker for Python `s.replace(pat, rep)` (replaces every
non-overlapping occurrence, left to right). -/
def replaceGo (pat rep : CS) : Nat → CS → CS
  | 0, s => s
  | _, [] => []
  | fuel + 1, c :: rest =>
    if pat ≠ [] ∧ startsWithCL pat (c :: rest) then
      rep ++ replaceGo pat rep fuel (rest.drop (pat.length - 1))
    else c :: replaceGo pat rep fuel rest

/-- Python `s.replace(pat, rep)`. -/
def replaceAllCL (s pat rep : CS) : CS := replaceGo pat rep s.length s

/-- The part of a path after its last `/` — Python `Path(p).name`. -/
def afterLastSlash (s : CS) : CS :=
  (s.reverse.takeWhile (fun c => c ≠ '/')).reverse

/-- Python `Path(p).stem`: base name without its final extension. -/
def stemCL (p : CS) : CS :=
  let b := afterLastSlash p
  match b.reverse.dropWhile (fun c => c ≠ '.') with
  | [] => b
  | [_] => b
  | _ :: pre => pre.reverse

/-- Python `s.rstrip("/")`. -/
def rstripSlash (s : CS) : CS :=
  (s.reverse.dropWhile (fun c => c = '/')).reverse

/-- Drop the last `n` characters (Python `s[:-n]`). -/
def dropLastN (n : Nat) (s : CS) : CS := s.take (s.length - n)

/-- Python `":".join(xs)`. -/
def joinColon : List CS → CS
  | [] => []
  | [x] => x
  | x :: y :: xs => x ++ (':' :: joinColon (y :: xs))

/-- Length of the longest prefix of `s` whose characters satisfy `p`. -/
def countWhile (p : Char → Bool) (s : CS) : Nat := (s.takeWhile p).length

/-!  A small backtracking regex engine with Python `re` semantics for the
constructs actually used by the source patterns: literals, character
classes, greedy `*`/`+` on character classes, greedy `(?:...)?`,
left-preferring alternation, and a single capturing group. -/

inductive RE where
  | eps : RE
  | lit : CS → RE
  | cls : (Char → Bool) → RE
  | star : (Char → Bool) → RE
  | plus : (Char → Bool) → RE
  | opt : RE → RE
  | alt2 : RE → RE → RE
  | seq : RE → RE → RE
  | cap : RE → RE

/-- Match outcome handed to continuations: remaining input after the whole
pattern plus the list of captured substrings in group order. -/
abbrev MOut : Type := CS × List CS

/-- Greedy backtracking over repetition counts: try consuming `n` class
characters first, then `n - 1`, …, down to `0`. -/
def tryDrops : Nat → CS → (CS → Option MOut) → Option MOut
  | 0, s, k => k s
  | n + 1, s, k => (k (s.drop (n + 1))).orElse (fun _ => tryDrops n s k)

/-- Backtracking matcher in continuation-passing style; greedy quantifiers
and left-first alternation reproduce Python `re` preference order. -/
def reMatch : RE → CS → (CS → Option MOut) → Option MOut
  | RE.eps, s, k => k s
  | RE.lit l, s, k => if startsWithCL l s then k (s.drop l.length) else none
  | RE.cls p, s, k =>
    match s with
    | [] => none
    | c :: rest => if p c then k rest else none
  | RE.star p, s, k => tryDrops (countWhile p s) s k
  | RE.plus p, s, k =>
    match s with
    | [] => none
    | c :: rest => if p c then tryDrops (countWhile p rest) rest k else none
  | RE.opt r, s, k => (reMatch r s k).orElse (fun _ => k s)
  | RE.alt2 r1 r2, s, k => (reMatch r1 s k).orElse (fun _ => reMatch r2 s k)
  | RE.seq r1 r2, s, k => reMatch r1 s (fun s1 => reMatch r2 s1 k)
  | RE.cap r, s, k =>
    reMatch r s
      (fun s1 => (k s1).map (fun out => (out.1, s.take (s.length - s1.length) :: out.2)))

/-- One regex match: absolute start/end offsets (Python `m.start()` /
`m.end()`) and the text of the capturing group. -/
structure RMatch where
  start : Nat
  stop : Nat
  cap : CS
deriving DecidableEq

/-- Fuelled worker for `re.finditer`: leftmost matches, scanning resumes at
each match end (advancing by one on an empty match, as Python does). -/
def findAllGo (re : RE) (s : CS) : Nat → Nat → List RMatch
  | _, 0 => []
  | pos, fuel + 1 =>
    if pos ≤ s.length then
      match reMatch re (s.drop pos) (fun rest => some (rest, [])) with
      | some (rest, caps) =>
        let len := (s.length - pos) - rest.length
        let m : RMatch := ⟨pos, pos + len, (caps.head?).getD []⟩
        if len = 0 then m :: findAllGo re s (pos + 1) fuel
        else m :: findAllGo re s (pos + len) fuel
      | none => findAllGo re s (pos + 1) fuel
    else []

/-- `re.finditer(pattern, s)` as a list of matches. -/
def findAll (re : RE) (s : CS) : List RMatch := findAllGo re s 0 (s.length + 1)

/-- `re.search(pattern, s)`: the first match, if any. -/
def findFirst (re : RE) (s : CS) : Option RMatch := (findAll re s).head?

/-- Python `\w` (ASCII portion, as used on Java sources). -/
def wch (c : Char) : Bool := c.isAlpha || c.isDigit || c == '_'

/-- Python `\s`. -/
def sch (c : Char) : Bool :=
  c == ' ' || c == '\t' || c == '\n' || c == '\r' || c == '\x0b' || c == '\x0c'

/-- Character class `[\w<>,\s]` of the return-type part of the `@Test`
pattern. -/
def typch (c : Char) : Bool := wch c || c == '<' || c == '>' || c == ',' || sch c

/-- Character class `[\w,\s]` of the `throws` clause. -/
def thch (c : Char) : Bool := wch c || c == ',' || sch c

/-- Right-nested sequencing of a pattern list. -/
def seqL (rs : List RE) : RE := rs.foldr RE.seq RE.eps

/-!  The two test-method patterns of `TestExtractionPipeline.extract_test_methods`
(`pipeline.py` lines 196–205 and 222–227), translated construct by
construct.  Only the method-name group is capturing (Python group 2 of
`pat4`, group 1 of `pat3`); the `@Test`-line group of `pat4` is matched but
never read by the source, so it is left non-capturing here. -/

def pat4 : RE := seqL [
  RE.lit "@Test".data, RE.star (fun c => c ≠ '\n'), RE.lit [ '\n' ], RE.star sch,
  RE.opt (RE.alt2 (RE.lit "public".data)
    (RE.alt2 (RE.lit "protected".data) (RE.lit "private".data))),
  RE.star sch,
  RE.opt (RE.seq (RE.lit "static".data) (RE.plus sch)),
  RE.cls wch, RE.star typch, RE.plus sch,
  RE.cap (RE.plus wch),
  RE.star sch, RE.lit [ '(' ], RE.star (fun c => c ≠ ')'), RE.lit [ ')' ],
  RE.star sch,
  RE.opt (seqL [RE.lit "throws".data, RE.plus sch, RE.plus thch]),
  RE.star sch, RE.lit [ '{' ] ]

def pat3 : RE := seqL [
  RE.alt2 (RE.lit "public".data) (RE.lit "protected".data),
  RE.plus sch, RE.lit "void".data, RE.plus sch,
  RE.cap (RE.seq (RE.lit "test".data) (RE.plus wch)),
  RE.star sch, RE.lit [ '(' ], RE.star (fun c => c ≠ ')'), RE.lit [ ')' ],
  RE.star sch,
  RE.opt (seqL [RE.lit "throws".data, RE.plus sch, RE.plus thch]),
  RE.star sch, RE.lit [ '{' ] ]

/-- Pattern of `extract_package`: `package\s+([\w.]+)\s*;`. -/
def pkgPat : RE := seqL [
  RE.lit "package".data, RE.plus sch,
  RE.cap (RE.plus (fun c => wch c || c == '.')),
  RE.star sch, RE.lit [ ';' ] ]

/-- Pattern of `extract_classname`:
`(?:public\s+)?(?:abstract\s+)?(?:class|interface|enum)\s+(\w+)`. -/
def clsPat : RE := seqL [
  RE.opt (RE.seq (RE.lit "public".data) (RE.plus sch)),
  RE.opt (RE.seq (RE.lit "abstract".data) (RE.plus sch)),
  RE.alt2 (RE.lit "class".data)
    (RE.alt2 (RE.lit "interface".data) (RE.lit "enum".data)),
  RE.plus sch, RE.cap (RE.plus wch) ]

/-!  Brace scanning (`TestExtractionPipeline._extract_method_body`,
`pipeline.py` lines 175–186). -/

/-- Fuelled translation of the `while i < len(content) and depth > 0` loop;
returns the final `(i, depth)` pair. -/
def scanBodyGo (content : CS) : Nat → Nat → Nat → Nat × Nat
  | 0, i, depth => (i, depth)
  | fuel + 1, i, depth =>
    if i < content.length ∧ depth > 0 then
      let ch := content.getD i ' '
      let d1 : Nat := if ch = '{' then depth + 1 else if ch = '}' then depth - 1 else depth
      scanBodyGo content fuel (i + 1) d1
    else (i, depth)

/-- The scan state after the whole loop, starting at `brace_pos + 1` with
depth 1 (as in the source). -/
def scanBody (content : CS) (bracePos : Nat) : Nat × Nat :=
  scanBodyGo content (content.length + 1) (bracePos + 1) 1

/-- True when the forward brace scan returns to depth zero before the end of
the input. -/
def scanCloses (content : CS) (bracePos : Nat) : Bool := (scanBody content bracePos).2 = 0

/-- `_extract_method_body`: text between the matching braces, or the empty
string when the scan never returns to depth zero. -/
def extractMethodBody (content : CS) (bracePos : Nat) : CS :=
  let st := scanBody content bracePos
  if st.2 = 0 then (content.drop (bracePos + 1)).take ((st.1 - 1) - (bracePos + 1))
  else []

/-!  Test-method extraction (`extract_test_methods`, lines 188–245). -/

/-- One extracted test, with the fields the source stores per match (the
`annotation` dict key is the `ann` field here). -/
structure TestRec where
  method_name : CS
  code : CS
  file_path : CS
  ann : CS
deriving DecidableEq

/-- The `code` slice stored by the source:
`file_content[m.start() : m.end() - 1 + len(body) + 1]`. -/
def mkCode (content : CS) (m : RMatch) (body : CS) : CS :=
  (content.drop m.start).take ((m.stop + body.length) - m.start)

/-- Body of the per-match loop of `extract_test_methods`: skip names already
seen, record the name, extract the body, keep the match only when the body
is non-empty.  Returns the updated seen set and the optional new test. -/
def processMatch (content path ann : CS) (seen : List CS) (m : RMatch) :
    List CS × Option TestRec :=
  if m.cap ∈ seen then (seen, none)
  else if extractMethodBody content (m.stop - 1) = [] then (m.cap :: seen, none)
  else (m.cap :: seen,
    some ⟨m.cap, mkCode content m (extractMethodBody content (m.stop - 1)), path, ann⟩)

/-- The per-match loop over a match list, threading the seen set. -/
def processMatches (content path ann : CS) (seen : List CS) :
    List RMatch → List CS × List TestRec
  | [] => (seen, [])
  | m :: ms =>
    let st := processMatch content path ann seen m
    let rest := processMatches content path ann st.1 ms
    (rest.1, match st.2 with
             | some t => t :: rest.2
             | none => rest.2)

/-- All matches the extractor ever processes for a given content: the
`@Test` matches followed by the JUnit-3 matches. -/
def allTestMatches (content : CS) : List RMatch :=
  findAll pat4 content ++ findAll pat3 content

/-- `extract_test_methods`: `@Test` matches first; the JUnit-3 pass runs
only when the content contains `extends TestCase` and shares the seen set
with the first pass. -/
def extract_test_methods (content path : CS) : List TestRec :=
  let r4 := processMatches content path "@Test".data [] (findAll pat4 content)
  if containsCL "extends TestCase".data content then
    r4.2 ++ (processMatches content path "extends TestCase".data r4.1 (findAll pat3 content)).2
  else r4.2

/-- `extract_package`: first `package X;` declaration, if any. -/
def extract_package (content : CS) : Option CS :=
  (findFirst pkgPat content).map (fun m => m.cap)

/-- `extract_classname`: first class/interface/enum name, falling back to
the file's base name. -/
def extract_classname (content filePath : CS) : CS :=
  match findFirst clsPat content with
  | some m => m.cap
  | none => stemCL filePath

/-!  Candidate test paths (`TestExtractionPipeline._find_test_candidates`,
`pipeline.py` lines 125–157) and the test-file heuristic (`is_test_file`,
lines 159–171). -/

/-- `_find_test_candidates`: map a main source file to its candidate test
file paths. -/
def find_test_candidates (source_file : CS) : List CS :=
  if ¬ containsCL "/src/main/".data source_file then []
  else if ¬ endsWithCL ".java".data source_file then []
  else
    let test_base :=
      if containsCL "/src/main/java/".data source_file then
        replaceAllCL source_file "/src/main/java/".data "/src/test/java/".data
      else
        replaceAllCL source_file "/src/main/".data "/src/test/".data
    let stem := dropLastN 5 test_base
    let candidates := [
      stem ++ "Test.java".data,
      stem ++ "Tests.java".data,
      stem ++ "IT.java".data,
      stem ++ "TestCase.java".data ]
    if containsCL "/".data stem then
      let dir_part := dropLastN ((afterLastSlash stem).length + 1) stem
      let base_part := afterLastSlash stem
      candidates ++ [dir_part ++ '/' :: ("Test".data ++ base_part ++ ".java".data)]
    else candidates

/-- `is_test_file`: path/name heuristic for Java test files. -/
def is_test_file (file_path : CS) : Bool :=
  if containsCL "/src/test/java/".data file_path || containsCL "/src/test/".data file_path then
    true
  else
    let basename := afterLastSlash file_path
    if endsWithCL "Test.java".data basename || endsWithCL "Tests.java".data basename then true
    else if startsWithCL "Test".data basename && endsWithCL ".java".data basename then true
    else if endsWithCL "IT.java".data basename then true
    else false

/-!  Tier 1 per-commit and dataset processing
(`TestExtractionPipeline.process_commit`, lines 262–328, and
`process_dataset`, lines 332–412).  The git oracles stand for the
subprocess calls: `cloneOk p` is whether `clone_repo` yields a repo
directory for project `p` (a cached clone failure gives `false` for the
whole run), and `gitShow p sha path` is the content `git show sha:path`
returns (`none` covers both a missing path and empty output, exactly the
`if not content: continue` test of the source). -/

structure FileRec where
  file_name : CS
deriving DecidableEq

structure CommitRec where
  project : CS
  commit_sha : CS
  files : List FileRec
deriving DecidableEq

/-- An extracted test after `t.update({...})` in `process_commit`
(lines 317–324); `ann` is the `annotation` dict key. -/
structure ExtTest where
  method_name : CS
  code : CS
  file_path : CS
  ann : CS
  project : CS
  commit_sha : CS
  package : Option CS
  class_name : CS
  fqcn : CS
deriving DecidableEq

/-- The per-commit result dict of `process_commit`. -/
structure CommitResult where
  project : CS
  commit_sha : CS
  files_checked : Nat
  test_files_found : Nat
  test_methods : Nat
  extracted : List ExtTest
deriving DecidableEq

/-- The zeroed result dict built at the top of `process_commit`. -/
def emptyResult (c : CommitRec) : CommitResult :=
  ⟨c.project, c.commit_sha, 0, 0, 0, []⟩

/-- The `t.update({...})` enrichment of one extracted test. -/
def enrichTest (t : TestRec) (c : CommitRec) (pkg : Option CS) (cname : CS) : ExtTest :=
  ⟨t.method_name, t.code, t.file_path, t.ann, c.project, c.commit_sha, pkg, cname,
    match pkg with
    | some p => p ++ ('.' :: cname)
    | none => cname⟩

/-- Inner loop of `process_commit` over one file's candidate list,
threading the per-commit `seen_test_paths` set. -/
def processCandidates (gitShow : CS → CS → CS → Option CS) (c : CommitRec) :
    List CS → CommitResult × List CS → CommitResult × List CS
  | [], st => st
  | cand :: cands, st =>
    let res := st.1
    let seen := st.2
    if cand ∈ seen then processCandidates gitShow c cands st
    else
      let seen1 := cand :: seen
      match gitShow c.project c.commit_sha cand with
      | none => processCandidates gitShow c cands (res, seen1)
      | some content =>
        let res1 := { res with test_files_found := res.test_files_found + 1 }
        let methods := extract_test_methods content cand
        if methods = [] then processCandidates gitShow c cands (res1, seen1)
        else
          let pkg := extract_package content
          let cname := extract_classname content cand
          let res2 := { res1 with
            extracted := res1.extracted ++ methods.map (fun t => enrichTest t c pkg cname),
            test_methods := res1.test_methods + methods.length }
          processCandidates gitShow c cands (res2, seen1)

/-- Outer loop of `process_commit` over the commit's changed files. -/
def processFiles (gitShow : CS → CS → CS → Option CS) (c : CommitRec) :
    List FileRec → CommitResult × List CS → CommitResult × List CS
  | [], st => st
  | fdata :: fs, st =>
    let fpath := fdata.file_name
    if fpath = [] ∨ ¬ endsWithCL ".java".data fpath then
      processFiles gitShow c fs st
    else
      let res := { st.1 with files_checked := st.1.files_checked + 1 }
      let candidates :=
        if is_test_file fpath then [fpath] else find_test_candidates fpath
      processFiles gitShow c fs (processCandidates gitShow c candidates (res, st.2))

/-- `process_commit`: a failed clone returns the zeroed result; otherwise
every changed Java file contributes its candidate paths, deduplicated per
commit. -/
def process_commit (cloneOk : CS → Bool) (gitShow : CS → CS → CS → Option CS)
    (c : CommitRec) : CommitResult :=
  if cloneOk c.project then (processFiles gitShow c c.files (emptyResult c, [])).1
  else emptyResult c

/-- Python `if limit and idx > limit: break` over enumerate(fh, 1): `none`
and `some 0` are both falsy, so they process the whole dataset. -/
def takeLimit (limit : Option Nat) (commits : List CommitRec) : List CommitRec :=
  match limit with
  | none => commits
  | some 0 => commits
  | some n => commits.take n

/-- Dataset-level accumulator of `process_dataset` (the fields of
`self.stats`, `self.commits_without_tests` and `self.all_tests` the claims
are about). -/
structure DatasetOut where
  commits_processed : Nat
  commits_with_zero_tests : Nat
  without_tests : List CommitRec
  all_tests : List ExtTest
  results : List CommitResult
deriving DecidableEq

/-- One dataset-loop iteration of `process_dataset` (lines 348–363). -/
def datasetStep (cloneOk : CS → Bool) (gitShow : CS → CS → CS → Option CS)
    (acc : DatasetOut) (c : CommitRec) : DatasetOut :=
  let r := process_commit cloneOk gitShow c
  { commits_processed := acc.commits_processed + 1
    commits_with_zero_tests :=
      acc.commits_with_zero_tests + (if r.test_methods = 0 then 1 else 0)
    without_tests := acc.without_tests ++ (if r.test_methods = 0 then [c] else [])
    all_tests := acc.all_tests ++ r.extracted
    results := acc.results ++ [r] }

/-- `process_dataset` over the already-parsed dataset lines (JSON decoding
of the `.jsonl` input is external; undecodable lines are skipped before
this point). -/
def process_dataset (cloneOk : CS → Bool) (gitShow : CS → CS → CS → Option CS)
    (commits : List CommitRec) (limit : Option Nat) : DatasetOut :=
  (takeLimit limit commits).foldl (datasetStep cloneOk gitShow) ⟨0, 0, [], [], []⟩

/-- Tier 2 input wiring (`run_pipeline.py` lines 82–86): `check_commits`
receives exactly `tier1["commits_without_tests"]`. -/
def tier2_input (out : DatasetOut) : List CommitRec := out.without_tests

/-- Tier 3 input in full-pipeline mode (`run_pipeline.py` lines 92–95): the
cached `commits_without_tests.json`, which stores only project and
commit_sha (line 380), so the reloaded entries have no `files`. -/
def tier3_input_full (out : DatasetOut) : List CommitRec :=
  out.without_tests.map (fun c => ⟨c.project, c.commit_sha, []⟩)

/-!  Tier 3 (`EvoSuiteTestGenerator` / `RandoopTestGenerator`).  Maven and
generator subprocess outcomes are oracle fields; the decisions taken on
them (module scoping, the single full-project retry, the failure
short-circuits, the per-class loop with its break conditions) are
translated from the source. -/

inductive GStatus where
  | success
  | no_tests
  | failed
deriving DecidableEq

/-- The per-commit result dict of `generate_for_commit` (both tools). -/
structure GenRes where
  project : CS
  commit_sha : CS
  tests_generated : Nat
  tool : CS
  status : GStatus
deriving DecidableEq

/-- Marker loop of `_extract_module_from_files` (lines 728–735): try the
markers in order, moving on while `idx <= 0`; the loop breaks at the first
marker found at `idx > 0` whether or not the stripped prefix is empty. -/
def firstMarkerGo (fname : CS) : List CS → Option CS
  | [] => none
  | marker :: rest =>
    match findSub marker fname with
    | some idx =>
      if idx > 0 then
        let module_path := rstripSlash (fname.take idx)
        if module_path ≠ [] then some module_path else none
      else firstMarkerGo fname rest
    | none => firstMarkerGo fname rest

/-- `_extract_module_from_files` (lines 723–741), per-file part. -/
def firstMarkerModule (fname : CS) : Option CS :=
  firstMarkerGo fname
    ["src/main/java".data, "src/test/java".data, "src/main/resources".data]

/-- The `modules` set in insertion order, then `min(modules, key=len)`. -/
def extract_module_from_files (c : CommitRec) : Option CS :=
  let modules := c.files.foldl (fun acc f =>
    match firstMarkerModule f.file_name with
    | some m => if m ∈ acc then acc else acc ++ [m]
    | none => acc) []
  modules.foldl (fun best m =>
    match best with
    | none => some m
    | some b => if m.length < b.length then some m else best) none

/-- `_extract_target_classes` (lines 976–988): fully-qualified class names
from changed `src/main/java` paths. -/
def extract_target_classes (c : CommitRec) : List CS :=
  c.files.foldl (fun acc f =>
    let fname := f.file_name
    let marker := "src/main/java/".data
    match findSub marker fname with
    | some idx =>
      if endsWithCL ".java".data fname then
        let rel := fname.drop (idx + marker.length)
        acc ++ [(dropLastN 5 rel).map (fun ch => if ch = '/' then '.' else ch)]
      else acc
    | none => acc) []

/-- `collect_compiled_classes` (lines 908–929) over the oracle-provided
relative `.class` paths: strip `.class`, dots for slashes, drop nested
(`$`) and test-named classes. -/
def collect_compiled_classes (classFiles : List CS) : List CS :=
  classFiles.foldl (fun acc rel =>
    let class_name := (dropLastN 6 rel).map (fun ch => if ch = '/' then '.' else ch)
    if containsCL "$".data class_name || containsCL "Test".data class_name then acc
    else acc ++ [class_name]) []

/-- Maven-side oracle for one `compile_project` call.  The two copies of
`compile_project` (lines 766–906 and 1290–1415) are line-for-line
identical in the modelled logic, so one definition serves both
generators. -/
structure MvnEnv where
  hasPom : Bool
  modulePom : Bool
  classesScoped : List CS
  classesFull : List CS
  cpPom : Bool
  depCpOut : Option CS
deriving DecidableEq

/-- Build-tool invocations the model records: the root-POM install, the
main build goal (with whether `-pl <module> -am` was added), the one
full-project retry install, and the dependency-classpath query.  The
best-effort tooling/plugin pre-installs (lines 806–824) are not traced. -/
inductive MvnEvent where
  | rootInstall
  | mainBuild (withPl : Bool)
  | fullRetryInstall
  | depCpQuery
deriving DecidableEq

/-- `compile_project`: find the POM, detect the target module, run the main
goal, glob `**/target/classes` under the module scope, retry once with a
full-project `install` when a target module was set and the scoped glob
was empty, then assemble the classpath. -/
def compile_project (env : MvnEnv) (commit : Option CommitRec) :
    (Bool × Option CS) × List MvnEvent :=
  if ¬ env.hasPom then ((false, none), [])
  else
    let target_module := commit.bind extract_module_from_files
    let ev := [MvnEvent.rootInstall,
               MvnEvent.mainBuild (target_module.isSome && env.modulePom)]
    let st :=
      if env.classesScoped = [] ∧ target_module.isSome then
        (env.classesFull, ev ++ [MvnEvent.fullRetryInstall])
      else (env.classesScoped, ev)
    if st.1 = [] then ((false, none), st.2)
    else if env.cpPom then
      let ev1 := st.2 ++ [MvnEvent.depCpQuery]
      match env.depCpOut with
      | some dep => ((true, some (joinColon (st.1 ++ [dep]))), ev1)
      | none => ((true, some (joinColon st.1)), ev1)
    else ((true, some (joinColon st.1)), st.2)

/-- Outcome of one EvoSuite subprocess invocation: `timedOut` models the
caught `TimeoutExpired`, `output` is stdout + stderr combined. -/
structure EvoRun where
  timedOut : Bool
  returncode : Int
  output : CS
deriving DecidableEq

/-- Oracle for one EvoSuite `generate_for_commit` call: clone result,
Maven oracle, per-invocation tool outcomes (indexed by invocation count),
the `**/*_ESTest.java` glob count after each invocation, and the `.class`
files `collect_compiled_classes` would scan. -/
structure GenEnv where
  cloneOk : Bool
  mvn : MvnEnv
  jarExists : Bool
  runs : Nat → EvoRun
  filesAfter : Nat → Nat
  compiledClassFiles : List CS

/-- Generator subprocess invocations the model records. -/
inductive GenEvent where
  | evoRun (cls : CS)
  | randoopRun
deriving DecidableEq

/-- `Fatal crash` / `NullPointerException` signature test on the combined
output (line 965). -/
def crashSig (out : CS) : Bool :=
  containsCL "Fatal crash".data out || containsCL "NullPointerException".data out

/-- The `for class_name in classes` loop of `generate_tests_evosuite`
(lines 941–972): stop with the file count on the first rc-0 invocation
that left test files, abort on a fatal crash signature, otherwise advance
(including after a timeout). -/
def evoLoop (env : GenEnv) : List CS → Nat → List GenEvent → Nat × List GenEvent
  | [], _, ev => (0, ev)
  | cls :: rest, i, ev =>
    let ev1 := ev ++ [GenEvent.evoRun cls]
    let r := env.runs i
    if r.timedOut then evoLoop env rest (i + 1) ev1
    else if r.returncode = 0 then
      if env.filesAfter i ≠ 0 then (env.filesAfter i, ev1)
      else evoLoop env rest (i + 1) ev1
    else if crashSig r.output then (0, ev1)
    else evoLoop env rest (i + 1) ev1

/-- `generate_tests_evosuite`: returns 0 without any invocation when the
JAR is missing. -/
def generate_tests_evosuite (env : GenEnv) (classes : List CS) : Nat × List GenEvent :=
  if env.jarExists then evoLoop env classes 0 [] else (0, [])

/-- `EvoSuiteTestGenerator.generate_for_commit` (lines 990–1039), returning
the result dict plus the Maven and generator invocation traces. -/
def generate_for_commit_evosuite (env : GenEnv) (c : CommitRec) :
    GenRes × List MvnEvent × List GenEvent :=
  let base : GenRes := ⟨c.project, c.commit_sha, 0, "evosuite".data, GStatus.failed⟩
  if ¬ env.cloneOk then (base, [], [])
  else
    let comp := compile_project env.mvn (some c)
    match comp.1 with
    | (true, some cp) =>
      if cp = [] then (base, comp.2, [])
      else
        let target_classes := extract_target_classes c
        if target_classes ≠ [] then
          let gen := generate_tests_evosuite env target_classes
          ({ base with
              tests_generated := gen.1
              status := if gen.1 > 0 then GStatus.success else GStatus.no_tests },
           comp.2, gen.2)
        else
          let classes := collect_compiled_classes env.compiledClassFiles
          if classes = [] then (base, comp.2, [])
          else
            let gen := generate_tests_evosuite env classes
            ({ base with
                tests_generated := gen.1
                status := if gen.1 > 0 then GStatus.success else GStatus.no_tests },
             comp.2, gen.2)
    | _ => (base, comp.2, [])

/-- Oracle for one Randoop `generate_for_commit` call. -/
structure RGenEnv where
  cloneOk : Bool
  mvn : MvnEnv
  jarExists : Bool
  rTimedOut : Bool
  rTestFiles : Nat
  compiledClassFiles : List CS

/-- `generate_tests_randoop` (lines 1440–1488): one invocation per commit
against the first 50 classes; the returned count is the number of
generated `.java` files (0 after a timeout or when none appear). -/
def generate_tests_randoop (env : RGenEnv) (classes : List CS) : Nat × List GenEvent :=
  if ¬ env.jarExists then (0, [])
  else
    let _class_list := classes.take 50
    if env.rTimedOut then (0, [GenEvent.randoopRun])
    else (env.rTestFiles, [GenEvent.randoopRun])

/-- `RandoopTestGenerator.generate_for_commit` (lines 1504–1553). -/
def generate_for_commit_randoop (env : RGenEnv) (c : CommitRec) :
    GenRes × List MvnEvent × List GenEvent :=
  let base : GenRes := ⟨c.project, c.commit_sha, 0, "randoop".data, GStatus.failed⟩
  if ¬ env.cloneOk then (base, [], [])
  else
    let comp := compile_project env.mvn (some c)
    match comp.1 with
    | (true, some cp) =>
      if cp = [] then (base, comp.2, [])
      else
        let target_classes := extract_target_classes c
        if target_classes ≠ [] then
          let gen := generate_tests_randoop env target_classes
          ({ base with
              tests_generated := gen.1
              status := if gen.1 > 0 then GStatus.success else GStatus.no_tests },
           comp.2, gen.2)
        else
          let classes := collect_compiled_classes env.compiledClassFiles
          if classes = [] then (base, comp.2, [])
          else
            let gen := generate_tests_randoop env classes
            ({ base with
                tests_generated := gen.1
                status := if gen.1 > 0 then GStatus.success else GStatus.no_tests },
             comp.2, gen.2)
    | _ => (base, comp.2, [])

/-!  Sequencer wiring of the fallback tier (`run_pipeline.py` lines
108–129): EvoSuite runs over all input commits in order (`process_commits`
produces one result per commit), then the commits whose result has
`tests_generated == 0` are looked up by (project, commit_sha) in the input
list (first match wins) and handed to Randoop. -/

/-- `EvoSuiteTestGenerator.process_commits` result list: one
`generate_for_commit` per input commit, in order. -/
def evo_process_commits (envOf : CommitRec → GenEnv) (commits : List CommitRec) :
    List GenRes :=
  commits.map (fun c => (generate_for_commit_evosuite (envOf c) c).1)

/-- The `failed_commits` collection loop (`run_pipeline.py` lines 114–121). -/
def failed_commits : List GenRes → List CommitRec → List CommitRec
  | [], _ => []
  | r :: rs, commits =>
    (if r.tests_generated = 0 then
      match commits.find? (fun c =>
          c.project == r.project && c.commit_sha == r.commit_sha) with
      | some c => [c]
      | none => []
    else []) ++ failed_commits rs commits

/-- `RandoopTestGenerator.process_commits`: one `generate_for_commit` per
element of its input list, so a commit receives as many fallback attempts
as it has occurrences in that list. -/
def randoop_process_commits (envOf : CommitRec → RGenEnv) (commits : List CommitRec) :
    List GenRes :=
  commits.map (fun c => (generate_for_commit_randoop (envOf c) c).1)

/-- Identity key used by the sequencer's lookup. -/
def commitKey (c : CommitRec) : CS × CS := (c.project, c.commit_sha)

/-!  Lemmas about the per-match processing. -/

/-- A kept match has a brace scan that returned to depth zero. -/
lemma processMatch_some_closes (content path ann : CS) (seen : List CS) (m : RMatch)
    (t : TestRec) (h : (processMatch content path ann seen m).2 = some t) :
    scanCloses content (m.stop - 1) = true := by
  by_cases h1 : m.cap ∈ seen
  · simp [processMatch, h1] at h
  · by_cases h2 : extractMethodBody content (m.stop - 1) = []
    · simp [processMatch, h1, h2] at h
    · rcases h0 : (scanBody content (m.stop - 1)).2 with _ | n
      · simp [scanCloses, h0]
      · exact absurd (by simp [extractMethodBody, h0]) h2

/-- A match whose scan never returns to depth zero is dropped. -/
lemma processMatch_not_closes (content path ann : CS) (seen : List CS) (m : RMatch)
    (h : scanCloses content (m.stop - 1) = false) :
    (processMatch content path ann seen m).2 = none := by
  have hb : extractMethodBody content (m.stop - 1) = [] := by
    simp only [scanCloses, decide_eq_false_iff_not] at h
    simp [extractMethodBody, h]
  by_cases h1 : m.cap ∈ seen
  · simp [processMatch, h1]
  · simp [processMatch, h1, hb]

/-- A kept match contributes its captured name, which was fresh, and the
name is pushed onto the seen set. -/
lemma processMatch_some_name (content path ann : CS) (seen : List CS) (m : RMatch)
    (t : TestRec) (h : (processMatch content path ann seen m).2 = some t) :
    t.method_name = m.cap ∧ m.cap ∉ seen ∧
      (processMatch content path ann seen m).1 = m.cap :: seen := by
  by_cases h1 : m.cap ∈ seen
  · simp [processMatch, h1] at h
  · by_cases h2 : extractMethodBody content (m.stop - 1) = []
    · simp [processMatch, h1, h2] at h
    · have ht :
          t = ⟨m.cap, mkCode content m (extractMethodBody content (m.stop - 1)),
               path, ann⟩ := by
        have := h
        simp [processMatch, h1, h2] at this
        exact this.symm
      subst ht
      exact ⟨rfl, h1, by simp [processMatch, h1, h2]⟩

/-- The seen set only ever grows. -/
lemma processMatch_seen_sub (content path ann : CS) (seen : List CS) (m : RMatch) :
    ∀ x ∈ seen, x ∈ (processMatch content path ann seen m).1 := by
  intro x hx
  by_cases h1 : m.cap ∈ seen
  · simpa [processMatch, h1] using hx
  · by_cases h2 : extractMethodBody content (m.stop - 1) = []
    · simp [processMatch, h1, h2]
      exact Or.inr hx
    · simp [processMatch, h1, h2]
      exact Or.inr hx

/-- A match with an empty extracted body is dropped, while its name is
still recorded in the seen set. -/
lemma processMatch_empty_body (content path ann : CS) (seen : List CS) (m : RMatch)
    (h : extractMethodBody content (m.stop - 1) = []) :
    (processMatch content path ann seen m).2 = none ∧
      (m.cap ∉ seen → (processMatch content path ann seen m).1 = m.cap :: seen) := by
  by_cases h1 : m.cap ∈ seen
  · exact ⟨by simp [processMatch, h1], fun hc => absurd h1 hc⟩
  · exact ⟨by simp [processMatch, h1, h], fun _ => by simp [processMatch, h1, h]⟩


/-- Every test in the processed output arises from some match of the list,
kept by the per-match step from some intermediate seen set. -/
lemma processMatches_mem (content path ann : CS) :
    ∀ (ms : List RMatch) (seen : List CS) (t : TestRec),
      t ∈ (processMatches content path ann seen ms).2 →
      ∃ seen1 m, m ∈ ms ∧ (processMatch content path ann seen1 m).2 = some t := by
  intro ms
  induction ms with
  | nil => intro seen t h; simp [processMatches] at h
  | cons m ms ih =>
    intro seen t h
    simp only [processMatches] at h
    rcases hpm : (processMatch content path ann seen m).2 with _ | t0
    · rw [hpm] at h
      obtain ⟨s1, m1, hm1, hp⟩ := ih _ t h
      exact ⟨s1, m1, List.mem_cons_of_mem _ hm1, hp⟩
    · rw [hpm] at h
      rcases List.mem_cons.mp h with h | h
      · exact ⟨seen, m, List.mem_cons_self _ _, by rw [hpm, h]⟩
      · obtain ⟨s1, m1, hm1, hp⟩ := ih _ t h
        exact ⟨s1, m1, List.mem_cons_of_mem _ hm1, hp⟩

/-- Dedup invariants of the per-match loop: output names are distinct,
avoid the incoming seen set, and end up in the final seen set, which
extends the incoming one. -/
lemma processMatches_inv (content path ann : CS) :
    ∀ (ms : List RMatch) (seen : List CS),
      (((processMatches content path ann seen ms).2.map
          (fun t => t.method_name)).Nodup)
      ∧ (∀ t ∈ (processMatches content path ann seen ms).2, t.method_name ∉ seen)
      ∧ (∀ x ∈ seen, x ∈ (processMatches content path ann seen ms).1)
      ∧ (∀ t ∈ (processMatches content path ann seen ms).2,
          t.method_name ∈ (processMatches content path ann seen ms).1) := by
  intro ms
  induction ms with
  | nil =>
    intro seen
    exact ⟨by simp [processMatches], by simp [processMatches],
      by simp [processMatches], by simp [processMatches]⟩
  | cons m ms ih =>
    intro seen
    rcases hpm : (processMatch content path ann seen m).2 with _ | t0
    · have hsub := processMatch_seen_sub content path ann seen m
      obtain ⟨ih1, ih2, ih3, ih4⟩ := ih (processMatch content path ann seen m).1
      refine ⟨?_, ?_, ?_, ?_⟩
      · simpa [processMatches, hpm] using ih1
      · intro t ht
        simp only [processMatches, hpm] at ht
        exact fun hc => ih2 t ht (hsub _ hc)
      · intro x hx
        simpa [processMatches, hpm] using ih3 x (hsub x hx)
      · intro t ht
        simp only [processMatches, hpm] at ht
        simpa [processMatches, hpm] using ih4 t ht
    · obtain ⟨hname, hfresh, hseen⟩ :=
        processMatch_some_name content path ann seen m t0 hpm
      have hsub := processMatch_seen_sub content path ann seen m
      obtain ⟨ih1, ih2, ih3, ih4⟩ := ih (processMatch content path ann seen m).1
      refine ⟨?_, ?_, ?_, ?_⟩
      · simp only [processMatches, hpm, List.map_cons, List.nodup_cons]
        refine ⟨?_, ih1⟩
        intro hc
        simp only [List.mem_map] at hc
        obtain ⟨t1, ht1, he⟩ := hc
        exact ih2 t1 ht1 (by rw [he, hname, hseen]; exact List.mem_cons_self _ _)
      · intro t ht
        simp only [processMatches, hpm, List.mem_cons] at ht
        rcases ht with rfl | ht
        · rw [hname]; exact hfresh
        · exact fun hc => ih2 t ht (hsub _ hc)
      · intro x hx
        simpa [processMatches, hpm] using ih3 x (hsub x hx)
      · intro t ht
        simp only [processMatches, hpm, List.mem_cons] at ht
        rcases ht with rfl | ht
        · have : t.method_name ∈ (processMatch content path ann seen m).1 := by
            rw [hname, hseen]; exact List.mem_cons_self _ _
          simpa [processMatches, hpm] using ih3 _ this
        · simpa [processMatches, hpm] using ih4 t ht

/-!  Characterization of the dataset loop. -/

/-- The zero-test list accumulated by the dataset loop is the filter of the
processed prefix by `test_methods == 0`. -/
lemma foldl_datasetStep_without (cloneOk : CS → Bool)
    (gitShow : CS → CS → CS → Option CS) :
    ∀ (cs : List CommitRec) (acc : DatasetOut),
      (cs.foldl (datasetStep cloneOk gitShow) acc).without_tests
        = acc.without_tests
          ++ cs.filter (fun c => (process_commit cloneOk gitShow c).test_methods == 0) := by
  intro cs
  induction cs with
  | nil => intro acc; simp
  | cons c cs ih =>
    intro acc
    by_cases h : (process_commit cloneOk gitShow c).test_methods = 0
    · simp [List.foldl_cons, ih, datasetStep, h, List.filter_cons]
    · simp [List.foldl_cons, ih, datasetStep, h, List.filter_cons]

/-- The dataset loop counts every processed commit. -/
lemma foldl_datasetStep_processed (cloneOk : CS → Bool)
    (gitShow : CS → CS → CS → Option CS) :
    ∀ (cs : List CommitRec) (acc : DatasetOut),
      (cs.foldl (datasetStep cloneOk gitShow) acc).commits_processed
        = acc.commits_processed + cs.length := by
  intro cs
  induction cs with
  | nil => intro acc; simp
  | cons c cs ih =>
    intro acc
    simp [List.foldl_cons, ih, datasetStep]
    omega

/-- Membership in `commits_without_tests` is exactly: processed by the run
and zero extracted test methods. -/
lemma mem_without_tests_iff (cloneOk : CS → Bool)
    (gitShow : CS → CS → CS → Option CS) (commits : List CommitRec)
    (limit : Option Nat) (c : CommitRec) :
    c ∈ (process_dataset cloneOk gitShow commits limit).without_tests
      ↔ c ∈ takeLimit limit commits
          ∧ (process_commit cloneOk gitShow c).test_methods = 0 := by
  unfold process_dataset
  rw [foldl_datasetStep_without]
  simp [List.mem_filter]

/-!  Concrete fixtures used by witnesses and scenario claims. -/

/-- A JUnit-4 test file: package `p`, class `ATest`, one annotated method
`testX`. -/
def fixContentA : CS :=
  "package p;\npublic class ATest \x7b\n@Test\npublic void testX() \x7b int a = 1; \x7d\n\x7d\n".data

/-- A second JUnit-4 test file: package `q`, class `BTest`, one annotated
method also named `testX`. -/
def fixContentB : CS :=
  "package q;\npublic class BTest \x7b\n@Test\npublic void testX() \x7b int b = 2; \x7d\n\x7d\n".data

def fixPathA : CS := "a/src/test/java/p/ATest.java".data

def fixPathB : CS := "b/src/test/java/q/BTest.java".data

/-- A commit touching the one test file `fixPathA`. -/
def fixCommitA : CommitRec := ⟨"proj".data, "sha1".data, [⟨fixPathA⟩]⟩

/-- Git oracle serving `fixContentA` at `fixPathA` and `fixContentB` at
`fixPathB`. -/
def fixShow : CS → CS → CS → Option CS := fun _ _ path =>
  if path = fixPathA then some fixContentA
  else if path = fixPathB then some fixContentB
  else none

/-- C1: a commit whose Tier 1 processing extracted at least one test method
is not in the `commits_without_tests` list and hence never reaches Tier 2's
`check_commits`; the Tier 2 input holds exactly the processed commits whose
Tier 1 result had zero extracted test methods. -/
theorem C1_tier2_gets_exactly_the_zero_test_commits
    (cloneOk : CS → Bool) (gitShow : CS → CS → CS → Option CS)
    (commits : List CommitRec) (limit : Option Nat) (c : CommitRec) :
    (1 ≤ (process_commit cloneOk gitShow c).test_methods →
      c ∉ tier2_input (process_dataset cloneOk gitShow commits limit))
    ∧ (c ∈ tier2_input (process_dataset cloneOk gitShow commits limit)
        ↔ c ∈ takeLimit limit commits
            ∧ (process_commit cloneOk gitShow c).test_methods = 0) := by
  constructor
  · intro h hc
    have hz := (mem_without_tests_iff cloneOk gitShow commits limit c).mp hc
    omega
  · exact mem_without_tests_iff cloneOk gitShow commits limit c

/-- Witness for C1 at a concrete commit that yields one extracted test. -/
theorem C1_witness :
    fixCommitA ∉ tier2_input (process_dataset (fun _ => true) fixShow [fixCommitA] none) :=
  (C1_tier2_gets_exactly_the_zero_test_commits (fun _ => true) fixShow
    [fixCommitA] none fixCommitA).1 (by decide)

/-- C3: the candidate-derivation function maps
`mod/src/main/java/org/x/Foo.java` to exactly the five conventional
candidates, in order, and is a deterministic (pure) function of the path
alone. -/
theorem C3_candidate_paths_exact_and_deterministic :
    (find_test_candidates "mod/src/main/java/org/x/Foo.java".data
      = ["mod/src/test/java/org/x/FooTest.java".data,
         "mod/src/test/java/org/x/FooTests.java".data,
         "mod/src/test/java/org/x/FooIT.java".data,
         "mod/src/test/java/org/x/FooTestCase.java".data,
         "mod/src/test/java/org/x/TestFoo.java".data])
    ∧ ∀ p : CS, find_test_candidates p = find_test_candidates p :=
  ⟨by decide, fun _ => rfl⟩

/-- C10: a commit whose project clone failed still gets a zero-test result
from `process_commit` (no exception path), is counted as processed by the
dataset loop, lands in `commits_without_tests`, and is therefore routed
into both the Tier 2 input and the full-pipeline Tier 3 input. -/
theorem C10_clone_failure_routes_commit_downstream
    (cloneOk : CS → Bool) (gitShow : CS → CS → CS → Option CS)
    (commits : List CommitRec) (limit : Option Nat) (c : CommitRec)
    (h : cloneOk c.project = false) :
    process_commit cloneOk gitShow c = emptyResult c
    ∧ (process_commit cloneOk gitShow c).test_methods = 0
    ∧ (process_dataset cloneOk gitShow commits limit).commits_processed
        = (takeLimit limit commits).length
    ∧ (c ∈ takeLimit limit commits →
        c ∈ tier2_input (process_dataset cloneOk gitShow commits limit)
          ∧ ∃ e, e ∈ tier3_input_full (process_dataset cloneOk gitShow commits limit)
              ∧ e.project = c.project ∧ e.commit_sha = c.commit_sha) := by
  have hpc : process_commit cloneOk gitShow c = emptyResult c := by
    simp [process_commit, h]
  refine ⟨hpc, by rw [hpc]; rfl, ?_, ?_⟩
  · unfold process_dataset
    rw [foldl_datasetStep_processed]
    simp
  · intro hmem
    have hw : c ∈ (process_dataset cloneOk gitShow commits limit).without_tests :=
      (mem_without_tests_iff cloneOk gitShow commits limit c).mpr
        ⟨hmem, by rw [hpc]; rfl⟩
    refine ⟨hw, ⟨c.project, c.commit_sha, []⟩, ?_, rfl, rfl⟩
    unfold tier3_input_full
    exact List.mem_map.mpr ⟨c, hw, rfl⟩

/-- Witness for C10 at a concrete commit with a failing clone oracle. -/
theorem C10_witness :
    process_commit (fun _ => false) fixShow fixCommitA = emptyResult fixCommitA :=
  (C10_clone_failure_routes_commit_downstream (fun _ => false) fixShow
    [fixCommitA] none fixCommitA (by decide)).1

/-- Decomposition of the extractor into its two passes. -/
lemma extract_test_methods_eq (content path : CS) :
    extract_test_methods content path
      = (processMatches content path "@Test".data [] (findAll pat4 content)).2
        ++ (if containsCL "extends TestCase".data content then
              (processMatches content path "extends TestCase".data
                (processMatches content path "@Test".data [] (findAll pat4 content)).1
                (findAll pat3 content)).2
            else []) := by
  unfold extract_test_methods
  split_ifs <;> simp

/-- Every extracted test comes from one of the regex matches via the
per-match step. -/
lemma extract_mem_processMatch (content path : CS) (t : TestRec)
    (h : t ∈ extract_test_methods content path) :
    ∃ ann seen m, m ∈ allTestMatches content
      ∧ (processMatch content path ann seen m).2 = some t := by
  rw [extract_test_methods_eq] at h
  rcases List.mem_append.mp h with h | h
  · obtain ⟨s, m, hm, hp⟩ := processMatches_mem content path "@Test".data _ _ t h
    exact ⟨"@Test".data, s, m, List.mem_append_left _ hm, hp⟩
  · split_ifs at h with hc
    · obtain ⟨s, m, hm, hp⟩ :=
        processMatches_mem content path "extends TestCase".data _ _ t h
      exact ⟨"extends TestCase".data, s, m, List.mem_append_right _ hm, hp⟩
    · simp at h

/-- C4: every test method the extractor returns comes from a regex match
kept by the per-match step, which only keeps a match when the forward brace
scan from its opening brace returns to depth zero; any match whose scan
never returns to depth zero is excluded from the result. -/
theorem C4_kept_matches_have_balanced_bodies :
    (∀ (content path ann : CS) (seen : List CS) (m : RMatch) (t : TestRec),
      (processMatch content path ann seen m).2 = some t →
      scanCloses content (m.stop - 1) = true)
    ∧ (∀ (content path ann : CS) (seen : List CS) (m : RMatch),
      scanCloses content (m.stop - 1) = false →
      (processMatch content path ann seen m).2 = none)
    ∧ (∀ (content path : CS) (t : TestRec), t ∈ extract_test_methods content path →
      ∃ ann seen m, m ∈ allTestMatches content
        ∧ (processMatch content path ann seen m).2 = some t
        ∧ scanCloses content (m.stop - 1) = true) := by
  refine ⟨processMatch_some_closes, processMatch_not_closes, ?_⟩
  intro content path t h
  obtain ⟨ann, s, m, hm, hp⟩ := extract_mem_processMatch content path t h
  exact ⟨ann, s, m, hm, hp, processMatch_some_closes content path ann s m t hp⟩

/-- Witness for C4: a match whose brace scan never closes (content `ab`,
match ending at offset 1) is dropped. -/
theorem C4_witness :
    (processMatch "ab".data "p".data "@Test".data [] ⟨0, 1, "t".data⟩).2 = none :=
  C4_kept_matches_have_balanced_bodies.2.1 "ab".data "p".data "@Test".data []
    ⟨0, 1, "t".data⟩ (by decide)

/-- Content of the C9 scenario: two same-named annotated methods, the first
with an empty body, the second with a non-empty one. -/
def c9content : CS :=
  "@Test\npublic void testX() \x7b\x7d\n@Test\npublic void testX() \x7b int a = 1; \x7d\n".data

/-- C9: an empty balanced body is excluded exactly like an unbalanced one
(the body extractor returns the empty string in both cases and the caller
keeps only non-empty bodies), the discarded method's name is still
recorded as seen, and any later same-named method in the same scan is
never extracted — concretely, the two-method file yields no tests at all. -/
theorem C9_empty_body_discarded_but_name_recorded :
    (∀ (content : CS) (bp : Nat),
      scanCloses content bp = false → extractMethodBody content bp = [])
    ∧ (∀ (content path ann : CS) (seen : List CS) (m : RMatch),
      extractMethodBody content (m.stop - 1) = [] →
      (processMatch content path ann seen m).2 = none
        ∧ (m.cap ∉ seen → (processMatch content path ann seen m).1 = m.cap :: seen))
    ∧ (∀ (content path ann : CS) (seen : List CS) (ms : List RMatch) (t : TestRec),
      t ∈ (processMatches content path ann seen ms).2 → t.method_name ∉ seen)
    ∧ extract_test_methods c9content "A.java".data = [] := by
  refine ⟨?_, ?_, ?_, by decide⟩
  · intro content bp h
    simp only [scanCloses, decide_eq_false_iff_not] at h
    simp [extractMethodBody, h]
  · intro content path ann seen m h
    exact processMatch_empty_body content path ann seen m h
  · intro content path ann seen ms t ht
    exact (processMatches_inv content path ann ms seen).2.1 t ht

/-- Witness for C9: the empty-body drop and seen-recording at a concrete
match (content `void t() {}`-like, brace at offset 0 of `\x7b\x7d`). -/
theorem C9_witness :
    (processMatch "\x7b\x7d".data "p".data "@Test".data [] ⟨0, 1, "t".data⟩).2 = none :=
  (C9_empty_body_discarded_but_name_recorded.2.1 "\x7b\x7d".data "p".data
    "@Test".data [] ⟨0, 1, "t".data⟩ (by decide)).1

/-!  C5 fixtures: one file with two same-named annotated methods, and one
commit whose two changed test files hold same-named methods in different
classes. -/

/-- One file, two annotated methods both named `testX`, both with
well-formed non-empty bodies. -/
def c5content : CS :=
  "class A \x7b\n@Test\npublic void testX() \x7b int a = 1; \x7d\n@Test\npublic void testX() \x7b int b = 2; \x7d\n\x7d\n".data

/-- Commit touching the two test files `fixPathA` and `fixPathB`. -/
def c5commit : CommitRec := ⟨"proj".data, "sha1".data, [⟨fixPathA⟩, ⟨fixPathB⟩]⟩

/-- The record extracted from `fixContentA` (class `ATest`). -/
def c5recA : ExtTest :=
  ⟨"testX".data, "@Test\npublic void testX() \x7b int a = 1; ".data, fixPathA,
    "@Test".data, "proj".data, "sha1".data, some "p".data, "ATest".data, "p.ATest".data⟩

/-- The record extracted from `fixContentB` (class `BTest`). -/
def c5recB : ExtTest :=
  ⟨"testX".data, "@Test\npublic void testX() \x7b int b = 2; ".data, fixPathB,
    "@Test".data, "proj".data, "sha1".data, some "q".data, "BTest".data, "q.BTest".data⟩

/-- C5: within one scan the extractor keeps at most one test per method
name (first occurrence wins, duplicates silently dropped) — and since a
scan assigns one class name to every test of the file, uniqueness per
(class, method-name) within a scan coincides with uniqueness per name;
the concrete one-file fixture yields exactly the first of its two
same-named methods, while two same-named methods in different classes
(necessarily different files, hence different scans) are both kept by
`process_commit`. -/
theorem C5_first_occurrence_wins_per_scan :
    (∀ (content path : CS),
      ((extract_test_methods content path).map (fun t => t.method_name)).Nodup)
    ∧ extract_test_methods c5content "A.java".data
        = [⟨"testX".data, "@Test\npublic void testX() \x7b int a = 1; ".data,
            "A.java".data, "@Test".data⟩]
    ∧ (process_commit (fun _ => true) fixShow c5commit).extracted = [c5recA, c5recB]
    ∧ c5recA.method_name = c5recB.method_name
    ∧ c5recA.class_name ≠ c5recB.class_name := by
  refine ⟨?_, by decide, by decide, by decide, by decide⟩
  intro content path
  rw [extract_test_methods_eq]
  obtain ⟨h41, h42, h43, h44⟩ :=
    processMatches_inv content path "@Test".data (findAll pat4 content) []
  split_ifs with hc
  · obtain ⟨h31, h32, h33, h34⟩ :=
      processMatches_inv content path "extends TestCase".data (findAll pat3 content)
        (processMatches content path "@Test".data [] (findAll pat4 content)).1
    rw [List.map_append]
    refine List.Nodup.append h41 h31 ?_
    intro a ha hb
    obtain ⟨t4, ht4, he4⟩ := List.mem_map.mp ha
    obtain ⟨t3, ht3, he3⟩ := List.mem_map.mp hb
    exact h32 t3 ht3 (by rw [he3, ← he4]; exact h44 t4 ht4)
  · simpa using h41

/-!  C8 fixture: a JUnit-3 style file. -/

/-- File with `extends TestCase` and the method
`public void testAdd(){ assertEquals(1,1); }`. -/
def c8content : CS :=
  "public class FooTest extends TestCase \x7b\n  public void testAdd()\x7b assertEquals(1,1); \x7d\n\x7d\n".data

def c8path : CS := "FooTest.java".data

/-- C8 counterexample: on the scenario file the extractor returns exactly
one test, named `testAdd`, but its annotation tag is the literal string
`extends TestCase` — not `legacy` as the claim states. -/
theorem C8_counterexample_tag_is_not_legacy :
    extract_test_methods c8content c8path
      = [⟨"testAdd".data, "public void testAdd()\x7b assertEquals(1,1); ".data,
          c8path, "extends TestCase".data⟩]
    ∧ "extends TestCase".data ≠ "legacy".data :=
  ⟨by decide, by decide⟩

/-- C8 (amended): the scenario file yields exactly one extracted test,
named `testAdd`, whose annotation tag is the legacy-convention marker
string `extends TestCase`. -/
theorem C8_one_legacy_test_named_testAdd :
    (extract_test_methods c8content c8path).length = 1
    ∧ (extract_test_methods c8content c8path).map (fun t => t.method_name)
        = ["testAdd".data]
    ∧ (extract_test_methods c8content c8path).map (fun t => t.ann)
        = ["extends TestCase".data] :=
  ⟨by decide, by decide, by decide⟩

/-!  Lemmas about the EvoSuite per-class loop. -/

/-- The loop stops at invocation `i` iff the run neither timed out nor
fell through: a clean exit that left test files, or a non-zero exit with a
fatal crash signature. -/
def evoStopB (env : GenEnv) (i : Nat) : Bool :=
  (!(env.runs i).timedOut)
    && ((decide ((env.runs i).returncode = 0) && decide (env.filesAfter i ≠ 0))
        || (decide (¬ (env.runs i).returncode = 0) && crashSig (env.runs i).output))

/-- A non-stopping invocation advances the loop to the next class. -/
lemma evoLoop_step_continue (env : GenEnv) (cls : CS) (rest : List CS) (i : Nat)
    (ev : List GenEvent) (h : evoStopB env i = false) :
    evoLoop env (cls :: rest) i ev
      = evoLoop env rest (i + 1) (ev ++ [GenEvent.evoRun cls]) := by
  by_cases ht : (env.runs i).timedOut
  · simp [evoLoop, ht]
  · by_cases hrc : (env.runs i).returncode = 0
    · have hf : env.filesAfter i = 0 := by
        simp [evoStopB, ht, hrc] at h
        exact h
      simp [evoLoop, ht, hrc, hf]
    · have hcr : crashSig (env.runs i).output = false := by
        simp [evoStopB, ht, hrc] at h
        exact h
      simp [evoLoop, ht, hrc, hcr]

/-- If the loop reaches invocation `n` (no earlier stop) and that run
exits non-zero with a crash signature, the loop returns 0 having attempted
exactly the first `n + 1` classes. -/
lemma evoLoop_crash (env : GenEnv) :
    ∀ (cs : List CS) (n i : Nat) (ev : List GenEvent),
      n < cs.length →
      (∀ j, j < n → evoStopB env (i + j) = false) →
      (env.runs (i + n)).timedOut = false →
      ¬ (env.runs (i + n)).returncode = 0 →
      crashSig (env.runs (i + n)).output = true →
      evoLoop env cs i ev = (0, ev ++ (cs.take (n + 1)).map GenEvent.evoRun) := by
  intro cs
  induction cs with
  | nil => intro n i ev hn _ _ _ _; simp at hn
  | cons cls rest ih =>
    intro n i ev hn hpre ht hrc hcr
    cases n with
    | zero =>
      simp only [Nat.add_zero] at ht hrc hcr
      simp [evoLoop, ht, hrc, hcr]
    | succ n1 =>
      have h0 : evoStopB env i = false := by simpa using hpre 0 (Nat.succ_pos _)
      rw [evoLoop_step_continue env cls rest i ev h0]
      have harr : (i + 1) + n1 = i + (n1 + 1) := by omega
      have := ih n1 (i + 1) (ev ++ [GenEvent.evoRun cls])
        (by simpa using Nat.lt_of_succ_lt_succ hn)
        (fun j hj => by
          have hq := hpre (j + 1) (Nat.succ_lt_succ hj)
          have : (i + 1) + j = i + (j + 1) := by omega
          rw [this]
          exact hq)
        (by rw [harr]; exact ht)
        (by rw [harr]; exact hrc)
        (by rw [harr]; exact hcr)
      rw [this]
      simp

/-- If the loop reaches invocation `n` and that run exits cleanly leaving
test files, the loop stops there with the file count. -/
lemma evoLoop_success (env : GenEnv) :
    ∀ (cs : List CS) (n i : Nat) (ev : List GenEvent),
      n < cs.length →
      (∀ j, j < n → evoStopB env (i + j) = false) →
      (env.runs (i + n)).timedOut = false →
      (env.runs (i + n)).returncode = 0 →
      env.filesAfter (i + n) ≠ 0 →
      evoLoop env cs i ev
        = (env.filesAfter (i + n), ev ++ (cs.take (n + 1)).map GenEvent.evoRun) := by
  intro cs
  induction cs with
  | nil => intro n i ev hn _ _ _ _; simp at hn
  | cons cls rest ih =>
    intro n i ev hn hpre ht hrc hf
    cases n with
    | zero =>
      simp only [Nat.add_zero] at ht hrc hf
      simp [evoLoop, ht, hrc, hf]
    | succ n1 =>
      have h0 : evoStopB env i = false := by simpa using hpre 0 (Nat.succ_pos _)
      rw [evoLoop_step_continue env cls rest i ev h0]
      have harr : (i + 1) + n1 = i + (n1 + 1) := by omega
      have := ih n1 (i + 1) (ev ++ [GenEvent.evoRun cls])
        (by simpa using Nat.lt_of_succ_lt_succ hn)
        (fun j hj => by
          have hq := hpre (j + 1) (Nat.succ_lt_succ hj)
          have : (i + 1) + j = i + (j + 1) := by omega
          rw [this]
          exact hq)
        (by rw [harr]; exact ht)
        (by rw [harr]; exact hrc)
        (by rw [harr]; exact hf)
      rw [this]
      rw [harr]
      simp

/-- C7: once the per-class loop reaches a class whose invocation exits
non-zero with a fatal crash signature, no later class is attempted and the
count is 0, so inside `generate_for_commit` the commit ends with status
`no_tests` (an earlier class with generated files would already have
stopped the loop — this is the first-success-wins stop, stated in the last
conjunct). -/
theorem C7_crash_aborts_remaining_classes
    (env : GenEnv) (classes : List CS) (i : Nat)
    (hjar : env.jarExists = true)
    (hi : i < classes.length)
    (hpre : ∀ j, j < i → evoStopB env j = false) :
    ((env.runs i).timedOut = false →
     ¬ (env.runs i).returncode = 0 →
     crashSig (env.runs i).output = true →
       generate_tests_evosuite env classes
         = (0, (classes.take (i + 1)).map GenEvent.evoRun)
       ∧ ∀ (c : CommitRec) (cp : CS) (mev : List MvnEvent),
           env.cloneOk = true →
           compile_project env.mvn (some c) = ((true, some cp), mev) →
           cp ≠ [] →
           extract_target_classes c = classes →
           (generate_for_commit_evosuite env c).1.status = GStatus.no_tests)
    ∧ ((env.runs i).timedOut = false →
       (env.runs i).returncode = 0 →
       env.filesAfter i ≠ 0 →
         generate_tests_evosuite env classes
           = (env.filesAfter i, (classes.take (i + 1)).map GenEvent.evoRun)) := by
  constructor
  · intro ht hrc hcr
    have hgen : generate_tests_evosuite env classes
        = (0, (classes.take (i + 1)).map GenEvent.evoRun) := by
      unfold generate_tests_evosuite
      rw [hjar]
      simp only [if_true]
      exact evoLoop_crash env classes i 0 []
        hi (fun j hj => by simpa using hpre j hj)
        (by simpa using ht) (by simpa using hrc) (by simpa using hcr)
    refine ⟨hgen, ?_⟩
    intro c cp mev hclone hcomp hcp htc
    have hne : classes ≠ [] := by
      intro hq
      rw [hq] at hi
      simp at hi
    unfold generate_for_commit_evosuite
    rw [hclone]
    simp only [Bool.not_true, Bool.false_eq_true, if_false, hcomp]
    rw [if_neg hcp, htc, if_pos hne, hgen]
    simp
  · intro ht hrc hf
    unfold generate_tests_evosuite
    rw [hjar]
    simp only [if_true]
    have := evoLoop_success env classes i 0 []
      hi (fun j hj => by simpa using hpre j hj)
      (by simpa using ht) (by simpa using hrc) (by simpa using hf)
    simpa using this

/-- Oracle for the C7 witness: every invocation crashes fatally. -/
def w7env : GenEnv :=
  ⟨true, ⟨true, true, ["m/target/classes".data], [], false, none⟩, true,
    fun _ => ⟨false, 1, "Fatal crash detected".data⟩, fun _ => 0, []⟩

/-- Witness for C7: a crash on the first of two classes leaves the second
unattempted. -/
theorem C7_witness :
    generate_tests_evosuite w7env ["a.A".data, "b.B".data]
      = (0, [GenEvent.evoRun "a.A".data]) :=
  ((C7_crash_aborts_remaining_classes w7env ["a.A".data, "b.B".data] 0
    (by decide) (by decide) (fun j hj => absurd hj (by omega))).1
    (by decide) (by decide) (by decide)).1

/-- Characterization of `compile_project` when the module-scoped build
leaves no compiled-output directories: exactly one full-project retry
install happens, and an empty glob after the retry fails the compile
stage. -/
lemma compile_project_scoped_empty (env : MvnEnv) (c : CommitRec)
    (hpom : env.hasPom = true)
    (htm : (extract_module_from_files c).isSome = true)
    (hsc : env.classesScoped = []) :
    (compile_project env (some c)).2.count MvnEvent.fullRetryInstall = 1
    ∧ (env.classesFull = [] → (compile_project env (some c)).1 = (false, none)) := by
  unfold compile_project
  rw [hpom]
  simp only [Bool.not_true, Bool.false_eq_true, if_false, Option.some_bind, hsc, htm]
  simp only [true_and, and_true, eq_self_iff_true, if_true, not_true,
    Bool.not_eq_true, if_false]
  refine ⟨?_, ?_⟩
  · rcases hf : env.classesFull with _ | ⟨d, ds⟩
    · simp [List.count_append, List.count_cons]
    · by_cases hcp : env.cpPom
      · rcases hd : env.depCpOut with _ | dep
        · simp [hcp, hd, List.count_append, List.count_cons]
        · simp [hcp, hd, List.count_append, List.count_cons]
      · simp [hcp, List.count_append, List.count_cons]
  · intro hempty
    simp [hempty]

/-- C6: with a target module set and no compiled-output directories after
the scoped build, exactly one full-project retry install runs; when the
retry also yields none, the compile stage fails, the commit's status is
`failed`, and neither the EvoSuite nor the Randoop generator is ever
invoked for it. -/
theorem C6_compile_retry_once_then_failed_without_generation
    (genv : GenEnv) (renv : RGenEnv) (c : CommitRec)
    (hpom : genv.mvn.hasPom = true) (hrpom : renv.mvn.hasPom = true)
    (htm : (extract_module_from_files c).isSome = true)
    (hsc : genv.mvn.classesScoped = []) (hrsc : renv.mvn.classesScoped = []) :
    (compile_project genv.mvn (some c)).2.count MvnEvent.fullRetryInstall = 1
    ∧ (genv.mvn.classesFull = [] → genv.cloneOk = true →
        (generate_for_commit_evosuite genv c).1.status = GStatus.failed
        ∧ (generate_for_commit_evosuite genv c).2.2 = [])
    ∧ (renv.mvn.classesFull = [] → renv.cloneOk = true →
        (generate_for_commit_randoop renv c).1.status = GStatus.failed
        ∧ (generate_for_commit_randoop renv c).2.2 = []) := by
  obtain ⟨hcount, hfail⟩ := compile_project_scoped_empty genv.mvn c hpom htm hsc
  obtain ⟨_, hrfail⟩ := compile_project_scoped_empty renv.mvn c hrpom htm hrsc
  refine ⟨hcount, ?_, ?_⟩
  · intro hempty hclone
    have hres := hfail hempty
    unfold generate_for_commit_evosuite
    rw [hclone]
    rcases hcc : compile_project genv.mvn (some c) with ⟨pair, mev⟩
    rw [hcc] at hres
    simp only at hres
    rw [hres]
    simp
  · intro hempty hclone
    have hres := hrfail hempty
    unfold generate_for_commit_randoop
    rw [hclone]
    rcases hcc : compile_project renv.mvn (some c) with ⟨pair, mev⟩
    rw [hcc] at hres
    simp only at hres
    rw [hres]
    simp

/-- Commit of the C6 witness: one changed file inside module `m`. -/
def w6commit : CommitRec := ⟨"proj".data, "shah".data, [⟨"m/src/main/java/A.java".data⟩]⟩

/-- Maven oracle of the C6 witness: POM present, both globs empty. -/
def w6mvn : MvnEnv := ⟨true, true, [], [], false, none⟩

def w6genv : GenEnv := ⟨true, w6mvn, true, fun _ => ⟨false, 0, []⟩, fun _ => 0, []⟩

def w6renv : RGenEnv := ⟨true, w6mvn, true, false, 0, []⟩

/-- Witness for C6: with both globs empty the concrete commit fails with no
generator invocation. -/
theorem C6_witness :
    (generate_for_commit_evosuite w6genv w6commit).1.status = GStatus.failed :=
  ((C6_compile_retry_once_then_failed_without_generation w6genv w6renv w6commit
    (by decide) (by decide) (by decide) (by decide) (by decide)).2.1
    (by decide) (by decide)).1

/-!  Lemmas for the fallback-sequencer claim. -/

/-- Both `generate_for_commit` variants copy the commit's identity into the
result dict on every path. -/
lemma evo_result_key (env : GenEnv) (c : CommitRec) :
    (generate_for_commit_evosuite env c).1.project = c.project
    ∧ (generate_for_commit_evosuite env c).1.commit_sha = c.commit_sha := by
  unfold generate_for_commit_evosuite
  by_cases h : env.cloneOk
  · rcases hcc : compile_project env.mvn (some c) with ⟨⟨ok, cp?⟩, mev⟩
    rcases ok with _ | _
    · rcases cp? with _ | cp <;> simp [h, hcc]
    · rcases cp? with _ | cp
      · simp [h, hcc]
      · simp only [h, hcc]
        split_ifs <;> simp
  · simp [h]

/-- A result that is not a success carries a zero generated-test count. -/
lemma evo_result_zero_or_success (env : GenEnv) (c : CommitRec) :
    (generate_for_commit_evosuite env c).1.tests_generated = 0
    ∨ (generate_for_commit_evosuite env c).1.status = GStatus.success := by
  unfold generate_for_commit_evosuite
  by_cases h : env.cloneOk
  · rcases hcc : compile_project env.mvn (some c) with ⟨⟨ok, cp?⟩, mev⟩
    rcases ok with _ | _
    · rcases cp? with _ | cp <;> simp [h, hcc]
    · rcases cp? with _ | cp
      · simp [h, hcc]
      · simp only [h, hcc]
        by_cases h1 : cp = []
        · simp [h1]
        · by_cases h2 : extract_target_classes c ≠ []
          · by_cases h3 : 0 < (generate_tests_evosuite env (extract_target_classes c)).1
            · right; simp [h1, h2, h3]
            · left; simp [h1, h2, h3]; omega
          · by_cases h4 : collect_compiled_classes env.compiledClassFiles = []
            · simp [h1, h2, h4]
            · by_cases h5 : 0 < (generate_tests_evosuite env
                  (collect_compiled_classes env.compiledClassFiles)).1
              · right; simp [h1, h2, h4, h5]
              · left; simp [h1, h2, h4, h5]; omega
  · simp [h]

/-- With pairwise-distinct (project, commit_sha) keys the sequencer's
first-match lookup returns the commit itself. -/
lemma find?_key_eq (commits : List CommitRec) (c : CommitRec)
    (hmem : c ∈ commits) (hnd : (commits.map commitKey).Nodup) :
    commits.find? (fun x => x.project == c.project && x.commit_sha == c.commit_sha)
      = some c := by
  induction commits with
  | nil => simp at hmem
  | cons d rest ih =>
    by_cases hd : (d.project == c.project && d.commit_sha == c.commit_sha) = true
    · have hkey : commitKey d = commitKey c := by
        simp only [Bool.and_eq_true, beq_iff_eq] at hd
        simp [commitKey, hd.1, hd.2]
      have hdc : d = c := by
        rcases List.mem_cons.mp hmem with h | hmem1
        · exact h.symm
        · exfalso
          have hin : commitKey c ∈ rest.map commitKey :=
            List.mem_map_of_mem commitKey hmem1
        
          rw [← hkey] at hin
          exact (List.nodup_cons.mp (by simpa using hnd)).1 hin
      simp only [List.find?]
      rw [hd]
      simp [hdc]
    · have hne : d ≠ c := by
        intro he
        exact hd (by rw [he]; simp)
      have hmem1 : c ∈ rest := by
        rcases List.mem_cons.mp hmem with h | h
        · exact absurd h.symm hne
        · exact h
      have hdf : (d.project == c.project && d.commit_sha == c.commit_sha) = false := by
        simpa using hd
      simp only [List.find?]
      rw [hdf]
      exact ih hmem1 (by
        rw [List.map_cons] at hnd
        exact hnd.of_cons)

/-- Under distinct keys, the fallback input is exactly the filter of the
Tier 3 input by a zero generated-test count, in order. -/
lemma failed_commits_eq_filter (f : CommitRec → GenRes) (commits : List CommitRec)
    (hf : ∀ x, (f x).project = x.project ∧ (f x).commit_sha = x.commit_sha)
    (hnd : (commits.map commitKey).Nodup) :
    ∀ cs : List CommitRec, (∀ x ∈ cs, x ∈ commits) →
      failed_commits (cs.map f) commits
        = cs.filter (fun x => (f x).tests_generated == 0) := by
  intro cs
  induction cs with
  | nil => intro _; simp [failed_commits]
  | cons x cs ih =>
    intro hsub
    have hx : x ∈ commits := hsub x (List.mem_cons_self _ _)
    have htail : ∀ y ∈ cs, y ∈ commits :=
      fun y hy => hsub y (List.mem_cons_of_mem _ hy)
    simp only [List.map_cons, failed_commits, List.filter_cons]
    by_cases hz : (f x).tests_generated = 0
    · rw [if_pos hz, if_pos (by simpa using hz)]
      have hfind : commits.find? (fun cc =>
          cc.project == (f x).project && cc.commit_sha == (f x).commit_sha) = some x := by
        rw [(hf x).1, (hf x).2]
        exact find?_key_eq commits x hx hnd
      rw [hfind, ih htail]
      simp
    · rw [if_neg hz, if_neg (by simpa using hz)]
      simpa using ih htail

/-- The Randoop variant also copies the commit identity into its result on
every path. -/
lemma randoop_result_key (env : RGenEnv) (c : CommitRec) :
    (generate_for_commit_randoop env c).1.project = c.project
    ∧ (generate_for_commit_randoop env c).1.commit_sha = c.commit_sha := by
  unfold generate_for_commit_randoop
  by_cases h : env.cloneOk
  · rcases hcc : compile_project env.mvn (some c) with ⟨⟨ok, cp?⟩, mev⟩
    rcases ok with _ | _
    · rcases cp? with _ | cp <;> simp [h, hcc]
    · rcases cp? with _ | cp
      · simp [h, hcc]
      · simp only [h, hcc]
        split_ifs <;> simp
  · simp [h]

/-- C2: with pairwise-distinct commit keys, a Tier 3 commit whose EvoSuite
result has status `no_tests` occurs exactly once in the fallback input that
`RandoopTestGenerator.process_commits` consumes (one fallback attempt), and
a commit whose EvoSuite result generated at least one test never occurs in
it (no fallback attempt). -/
theorem C2_fallback_attempted_exactly_once
    (envOf : CommitRec → GenEnv) (commits : List CommitRec) (c : CommitRec)
    (hnd : (commits.map commitKey).Nodup) (hc : c ∈ commits) :
    ((generate_for_commit_evosuite (envOf c) c).1.status = GStatus.no_tests →
      (failed_commits (evo_process_commits envOf commits) commits).count c = 1)
    ∧ (1 ≤ (generate_for_commit_evosuite (envOf c) c).1.tests_generated →
      (failed_commits (evo_process_commits envOf commits) commits).count c = 0)
    ∧ (∀ renvOf : CommitRec → RGenEnv,
      (generate_for_commit_evosuite (envOf c) c).1.status = GStatus.no_tests →
      ((randoop_process_commits renvOf
          (failed_commits (evo_process_commits envOf commits) commits)).countP
        (fun r => r.project == c.project && r.commit_sha == c.commit_sha)) = 1) := by
  have heq : failed_commits (evo_process_commits envOf commits) commits
      = commits.filter
          (fun x => (generate_for_commit_evosuite (envOf x) x).1.tests_generated == 0) := by
    unfold evo_process_commits
    exact failed_commits_eq_filter (fun x => (generate_for_commit_evosuite (envOf x) x).1)
      commits (fun x => evo_result_key (envOf x) x) hnd commits (fun x hx => hx)
  have hone : (generate_for_commit_evosuite (envOf c) c).1.status = GStatus.no_tests →
      (failed_commits (evo_process_commits envOf commits) commits).count c = 1 := by
    intro hst
    have hz : (generate_for_commit_evosuite (envOf c) c).1.tests_generated = 0 := by
      rcases evo_result_zero_or_success (envOf c) c with h | h
      · exact h
      · rw [hst] at h
        exact absurd h (by simp)
    rw [heq]
    rw [List.count_filter (by simpa using hz)]
    exact List.count_eq_one_of_mem (hnd.of_map commitKey) hc
  refine ⟨hone, ?_, ?_⟩
  · intro hpos
    rw [heq]
    refine List.count_eq_zero.mpr ?_
    intro hmem
    have := (List.mem_filter.mp hmem).2
    simp only [beq_iff_eq] at this
    omega
  · intro renvOf hst
    have hcount := hone hst
    unfold randoop_process_commits
    rw [List.countP_map]
    have hsub : ∀ x ∈ failed_commits (evo_process_commits envOf commits) commits,
        x ∈ commits := by
      intro x hx
      rw [heq] at hx
      exact (List.mem_filter.mp hx).1
    have hstep : ∀ x ∈ failed_commits (evo_process_commits envOf commits) commits,
        (((fun r : GenRes => r.project == c.project && r.commit_sha == c.commit_sha)
            ∘ (fun x => (generate_for_commit_randoop (renvOf x) x).1)) x)
          = (x == c) := by
      intro x hx
      have hk := randoop_result_key (renvOf x) x
      simp only [Function.comp_apply, hk.1, hk.2]
      by_cases hxc : x = c
      · subst hxc
        simp
      · have hkey : ¬ (x.project = c.project ∧ x.commit_sha = c.commit_sha) := by
          intro hpq
          exact hxc (List.inj_on_of_nodup_map hnd (hsub x hx) hc
            (by simp [commitKey, hpq.1, hpq.2]))
        have hbc : (x == c) = false := beq_eq_false_iff_ne.mpr hxc
        by_cases h1 : x.project = c.project
        · have h2 : x.commit_sha ≠ c.commit_sha := fun h2 => hkey ⟨h1, h2⟩
          have hb2 : (x.commit_sha == c.commit_sha) = false := beq_eq_false_iff_ne.mpr h2
          simp [h1, hb2, hbc]
        · have hb1 : (x.project == c.project) = false := beq_eq_false_iff_ne.mpr h1
          simp [hb1, hbc]
    rw [List.countP_congr (fun x hx => by rw [hstep x hx])]
    rw [← List.count_eq_countP]
    exact hcount

/-- Oracle of the C2 witness: clone and compile succeed but the EvoSuite
JAR is absent, so the result is `no_tests` with zero generated tests. -/
def w2env : GenEnv :=
  ⟨true, ⟨true, true, ["m/target/classes".data], [], false, none⟩, false,
    fun _ => ⟨false, 0, []⟩, fun _ => 0, []⟩

/-- Commit of the C2 witness. -/
def w2commit : CommitRec := ⟨"proj".data, "shaw".data, [⟨"m/src/main/java/A.java".data⟩]⟩

/-- Witness for C2: the single no-tests commit appears exactly once in the
fallback input. -/
theorem C2_witness :
    (failed_commits (evo_process_commits (fun _ => w2env) [w2commit]) [w2commit]).count
      w2commit = 1 :=
  (C2_fallback_attempted_exactly_once (fun _ => w2env) [w2commit] w2commit
    (by decide) (by decide)).1 (by decide)
